import Mathlib

/-!
# Verification of the Lotka-Volterra Gillespie simulator

Shallow embedding of the `LV` class from
`Code/Lotka_Volterra/robert_gillespie.ipynb` and proofs about it.

Modelling conventions:
* Python species counts (ints) become `ℤ`; rate constants and times
  (floats) become `ℚ`.
* Python dicts with string keys become association lists in insertion
  order; `dict[key]` lookup becomes `dictGet`, whose `none` result
  stands for a Python `KeyError`.
* The probabilistic-programming runtime (`particle`'s `env.bind`,
  `Discrete`, `Exponential`, `Condition`) is not part of this
  repository's sources; it is modelled from the spec as an explicit
  environment `Env` carrying a forced-evidence table and a fresh-draw
  stream, so every random choice of a run is an explicit input.
* A Python exception inside `run` (e.g. `KeyError` on a bad drawn
  event key, or `TypeError` when a drawn waiting time is not a
  number) is modelled by the `err` flag, which aborts the loop; the
  partially mutated object state is kept, as in Python.
-/

/-- A population state: the `{'prey': _, 'pred': _}` dictionary. -/
structure Ecology where
  prey : ℤ
  pred : ℤ
deriving DecidableEq, Repr

/-- One set of rate parameters (one hypothesis), the values of the
`theta` dictionary. -/
structure Theta where
  spawn_prey : ℚ
  prey2pred : ℚ
  pred_dies : ℚ
deriving DecidableEq, Repr

/-- A value drawn from a distribution: `Discrete` draws return a key
(string), `Exponential` draws return a number. -/
inductive Val where
  | s (v : String)
  | q (v : ℚ)
deriving DecidableEq, Repr

/-- The distribution object passed to `env.bind`: `Discrete` with a
weight dictionary, or `Exponential` with a rate. -/
inductive DistSpec where
  | discrete (w : List (String × ℚ))
  | exponential (rate : ℚ)
deriving DecidableEq, Repr

/-- One record of a random choice: its label, the distribution it was
drawn from, and the value obtained. -/
structure TraceEntry where
  label : String
  dist : DistSpec
  value : Val
deriving DecidableEq, Repr

/-- Association-list lookup, modelling Python `dict[key]`; `none`
models a `KeyError`. -/
def dictGet {β : Type} : List (String × β) → String → Option β
  | [], _ => none
  | (k, v) :: rest, key => if k = key then some v else dictGet rest key

/-- Association-list insertion with Python dict-literal semantics: a
duplicate key overwrites the value in place, otherwise the pair is
appended. -/
def dictInsert (l : List (String × ℚ)) (k : String) (v : ℚ) : List (String × ℚ) :=
  match l with
  | [] => [(k, v)]
  | (k', v') :: rest => if k' = k then (k, v) :: rest else (k', v') :: dictInsert rest k v

/-- Modelled from the spec: the probabilistic-programming runtime's
binding context (the `particle` library's `env` is not under the
repository's sources).  Per spec section 4.3, `bind` replays a forced
value when the label is in the evidence table, otherwise it draws the
next fresh value from the stream; either way the choice is recorded
in the trace. -/
structure Env where
  evidence : List (String × Val)
  stream : ℕ → Val
  idx : ℕ
  trace : List TraceEntry

/-- Modelled from the spec: `env.bind(label, dist)` returns the forced
evidence value for `label` if present, otherwise the next stream
value; the choice is appended to the trace. -/
def Env.bindVar (env : Env) (label : String) (d : DistSpec) : Val × Env :=
  match dictGet env.evidence label with
  | some v => (v, ⟨env.evidence, env.stream, env.idx, env.trace ++ [⟨label, d, v⟩]⟩)
  | none =>
      (env.stream env.idx,
       ⟨env.evidence, env.stream, env.idx + 1,
        env.trace ++ [⟨label, d, env.stream env.idx⟩]⟩)

/-- The `LV(Dist)` object: constructor arguments plus the mutable
`times` and `trajectory` fields. -/
structure LV where
  transitions : List (String × ℤ × ℤ)
  select_hyp : String
  initial : Ecology
  times : List ℚ
  trajectory_prey : List ℤ
  trajectory_pred : List ℤ
  N : ℕ
deriving DecidableEq, Repr

/-- `LV.__init__`: stores the arguments and seeds `times` with `[t0]`
and the trajectory with the initial counts. -/
def LV.init (transitions : List (String × ℤ × ℤ)) (initial : Ecology) (N : ℕ)
    (select_hyp : String) (t0 : ℚ) : LV :=
  ⟨transitions, select_hyp, initial, [t0], [initial.prey], [initial.pred], N⟩

/-- `LV.get_hazards(ecology, theta)`: mass-action hazards of the three
reactions, exactly as in the source. -/
def LV.get_hazards (ecology : Ecology) (θ : Theta) : List (String × ℚ) :=
  [("spawn_prey", θ.spawn_prey * ecology.prey),
   ("prey2pred", θ.prey2pred * ecology.prey * ecology.pred),
   ("pred_dies", θ.pred_dies * ecology.pred)]

/-- `sum(hazards.values())`. -/
def sumValues (w : List (String × ℚ)) : ℚ := (w.map Prod.snd).sum

/-- The hard-coded `theta_hypotheses` dictionary of `LV.run`. -/
def theta_hypotheses : List (String × Theta) :=
  [("H1", ⟨1, 0.005, 0.6⟩), ("H2", ⟨0.9, 0.004, 0.4⟩), ("H3", ⟨1.5, 0.01, 0.8⟩)]

/-- The `Discrete` weight dictionary used for the `"theta"` bind in
`LV.run`: a dict literal `{'H1': 0.0, 'H2': 0.0, 'H3': 0.0, sh: 1.0}`
when a hypothesis is pinned (Python's `is not "none"` modelled as
string inequality), else the explicit prior. -/
def thetaDist (sh : String) : List (String × ℚ) :=
  if sh = "none" then [("H1", 1 - 0.6666), ("H2", 0.3333), ("H3", 0.3333)]
  else dictInsert [("H1", 0), ("H2", 0), ("H3", 0)] sh 1

/-- The label `"event_{}".format(i)`. -/
def eventLabel (i : ℕ) : String := "event_" ++ toString i

/-- The label `"t_{}".format(i)`. -/
def timeLabel (i : ℕ) : String := "t_" ++ toString i

/-- The per-step state update of `LV.run`: add the reaction's delta to
each species, then clamp each species at zero
(`ecology[s] = max(0, ecology[s])`). -/
def updateEcology (ec : Ecology) (d : ℤ × ℤ) : Ecology :=
  ⟨max 0 (ec.prey + d.1), max 0 (ec.pred + d.2)⟩

/-- The loop-carried state of `LV.run`: the working `ecology`, the
clock `t`, the object being mutated, the binding environment, and the
exception flag. -/
structure SimState where
  ecology : Ecology
  t : ℚ
  lv : LV
  env : Env
  err : Bool

/-- One iteration of the `for i in range(1, self.N)` loop of `LV.run`,
in source order: compute hazards, bind `event_i` and look the drawn
key up in `transitions`, bind `t_i` and advance the clock, apply the
delta with per-species clamping, append to the trajectory and times.
A failed lookup or a non-numeric waiting-time draw sets `err`
(a Python exception). -/
def stepOnce (θ : Theta) (i : ℕ) (st : SimState) : SimState :=
  match st.env.bindVar (eventLabel i) (DistSpec.discrete (LV.get_hazards st.ecology θ)) with
  | (Val.q _, env1) => ⟨st.ecology, st.t, st.lv, env1, true⟩
  | (Val.s key, env1) =>
    match dictGet st.lv.transitions key with
    | none => ⟨st.ecology, st.t, st.lv, env1, true⟩
    | some d =>
      match env1.bindVar (timeLabel i)
          (DistSpec.exponential (sumValues (LV.get_hazards st.ecology θ))) with
      | (Val.s _, env2) => ⟨st.ecology, st.t, st.lv, env2, true⟩
      | (Val.q dt, env2) =>
        ⟨updateEcology st.ecology d, st.t + dt,
         { st.lv with
            times := st.lv.times ++ [st.t + dt],
            trajectory_prey := st.lv.trajectory_prey ++ [(updateEcology st.ecology d).prey],
            trajectory_pred := st.lv.trajectory_pred ++ [(updateEcology st.ecology d).pred] },
         env2, false⟩

/-- The `for i in range(1, self.N)` loop: `fuel` is the number of
remaining iterations and `i` the current index.  An exception (`err`)
aborts the loop. -/
def runLoop (θ : Theta) : ℕ → ℕ → SimState → SimState
  | _, 0, st => st
  | i, Nat.succ k, st => if st.err then st else runLoop θ (i + 1) k (stepOnce θ i st)

/-- The result of `LV.run`: the mutated object, the final environment
(with its trace), and whether the run finished without an exception. -/
structure RunOut where
  lv : LV
  env : Env
  ok : Bool

/-- `LV.run(env)`: copy the initial population, bind `"theta"` and
select the hypothesis parameters, then execute `N - 1` loop
iterations.  An unknown hypothesis key or a non-string draw is a
Python `KeyError` before the loop. -/
def LV.run (lv : LV) (env : Env) : RunOut :=
  match env.bindVar "theta" (DistSpec.discrete (thetaDist lv.select_hyp)) with
  | (Val.q _, env1) => ⟨lv, env1, false⟩
  | (Val.s key, env1) =>
    match dictGet theta_hypotheses key with
    | none => ⟨lv, env1, false⟩
    | some θ =>
      let st := runLoop θ 1 (lv.N - 1) ⟨lv.initial, lv.times.headI, lv, env1, false⟩
      ⟨st.lv, st.env, !st.err⟩

/-- The `transitions` dictionary built in the notebook from the
`Pre`/`Post` stoichiometry matrices:
`{'spawn_prey': (1, 0), 'prey2pred': (-1, 1), 'pred_dies': (0, -1)}`. -/
def transitions : List (String × ℤ × ℤ) :=
  [("spawn_prey", (1, 0)), ("prey2pred", (-1, 1)), ("pred_dies", (0, -1))]

/-- Modelled from the spec: inverse-CDF scan for weighted-categorical
sampling, walking the weight list in insertion order. -/
def discreteSampleGo : List (String × ℚ) → ℚ → Option String
  | [], _ => none
  | (k, p) :: rest, x => if x < p then some k else discreteSampleGo rest (x - p)

/-- Modelled from the spec: the `particle` library's `Discrete`
sampler is not under the repository's sources; per spec section 4.2
step 3 it draws by weighted-categorical sampling over the weights
normalized by their total, ties broken by stable enumeration order.
`u` is a uniform draw in `[0, 1)`. -/
def discreteSample (w : List (String × ℚ)) (u : ℚ) : Option String :=
  if sumValues w ≤ 0 then none else discreteSampleGo w (u * sumValues w)

/-- Modelled from the spec: the probability that a `Discrete`
distribution assigns to a key is its weight normalized by the total. -/
def discreteProb (w : List (String × ℚ)) (k : String) : ℚ :=
  match dictGet w k with
  | some p => p / sumValues w
  | none => 0

/-- Modelled from the spec: the mean of `Exponential(rate)` is
`1 / rate` (spec section 4.2 step 4). -/
def expMean (rate : ℚ) : ℚ := 1 / rate

/-- The label-to-value pairs of a trace, as used by the notebook's
`evidence = {k: v for k, v in trace.value.items() ...}`. -/
def evidenceOf (tr : List TraceEntry) : List (String × Val) :=
  tr.map (fun e => (e.label, e.value))

/-- How many entries of a trace carry a given label. -/
def countLabel (tr : List TraceEntry) (l : String) : ℕ :=
  (tr.filter (fun e => e.label = l)).length

/-- Every event-labelled entry of a trace drew from a hazard
distribution computed with the single parameter set `θ`. -/
def eventEntriesUse (θ : Theta) (tr : List TraceEntry) : Prop :=
  ∀ e ∈ tr, (∃ i, e.label = eventLabel i) →
    ∃ ec, e.dist = DistSpec.discrete (LV.get_hazards ec θ)

/-! ## Basic lemmas about the binding environment and the loop -/

theorem bindVar_evidence (env : Env) (l : String) (d : DistSpec) :
    (env.bindVar l d).2.evidence = env.evidence := by
  unfold Env.bindVar
  cases dictGet env.evidence l <;> rfl

theorem bindVar_stream (env : Env) (l : String) (d : DistSpec) :
    (env.bindVar l d).2.stream = env.stream := by
  unfold Env.bindVar
  cases dictGet env.evidence l <;> rfl

theorem bindVar_trace (env : Env) (l : String) (d : DistSpec) :
    (env.bindVar l d).2.trace = env.trace ++ [⟨l, d, (env.bindVar l d).1⟩] := by
  unfold Env.bindVar
  cases dictGet env.evidence l <;> rfl

theorem bindVar_forced (env : Env) (l : String) (d : DistSpec) (v : Val)
    (h : dictGet env.evidence l = some v) : (env.bindVar l d).1 = v := by
  unfold Env.bindVar
  rw [h]

theorem bindVar_value_cases (env : Env) (l : String) (d : DistSpec) :
    dictGet env.evidence l = some (env.bindVar l d).1 ∨
      (env.bindVar l d).1 = env.stream env.idx := by
  unfold Env.bindVar
  cases h : dictGet env.evidence l
  · exact Or.inr rfl
  · exact Or.inl rfl

theorem stepOnce_frame (θ : Theta) (i : ℕ) (st : SimState) :
    (stepOnce θ i st).env.evidence = st.env.evidence ∧
    (stepOnce θ i st).env.stream = st.env.stream ∧
    (stepOnce θ i st).lv.transitions = st.lv.transitions ∧
    (stepOnce θ i st).lv.select_hyp = st.lv.select_hyp ∧
    (stepOnce θ i st).lv.initial = st.lv.initial ∧
    (stepOnce θ i st).lv.N = st.lv.N := by
  unfold stepOnce
  rcases hb : st.env.bindVar (eventLabel i) (DistSpec.discrete (LV.get_hazards st.ecology θ)) with ⟨v, env1⟩
  have he1 : env1.evidence = st.env.evidence := by
    have := bindVar_evidence st.env (eventLabel i) (DistSpec.discrete (LV.get_hazards st.ecology θ))
    rwa [hb] at this
  have hs1 : env1.stream = st.env.stream := by
    have := bindVar_stream st.env (eventLabel i) (DistSpec.discrete (LV.get_hazards st.ecology θ))
    rwa [hb] at this
  cases v with
  | q _ => exact ⟨he1, hs1, rfl, rfl, rfl, rfl⟩
  | s key =>
    dsimp only
    cases ht : dictGet st.lv.transitions key with
    | none => exact ⟨he1, hs1, rfl, rfl, rfl, rfl⟩
    | some d =>
      dsimp only
      rcases hb2 : env1.bindVar (timeLabel i)
          (DistSpec.exponential (sumValues (LV.get_hazards st.ecology θ))) with ⟨v2, env2⟩
      have he2 : env2.evidence = env1.evidence := by
        have := bindVar_evidence env1 (timeLabel i)
          (DistSpec.exponential (sumValues (LV.get_hazards st.ecology θ)))
        rwa [hb2] at this
      have hs2 : env2.stream = env1.stream := by
        have := bindVar_stream env1 (timeLabel i)
          (DistSpec.exponential (sumValues (LV.get_hazards st.ecology θ)))
        rwa [hb2] at this
      cases v2 with
      | s _ => exact ⟨he2.trans he1, hs2.trans hs1, rfl, rfl, rfl, rfl⟩
      | q dt => exact ⟨he2.trans he1, hs2.trans hs1, rfl, rfl, rfl, rfl⟩

theorem stepOnce_trace (θ : Theta) (i : ℕ) (st : SimState) :
    ∃ v tl, (stepOnce θ i st).env.trace
        = st.env.trace ++ ⟨eventLabel i, DistSpec.discrete (LV.get_hazards st.ecology θ), v⟩ :: tl ∧
      (tl = [] ∨ ∃ r w, tl = [⟨timeLabel i, DistSpec.exponential r, w⟩]) := by
  unfold stepOnce
  rcases hb : st.env.bindVar (eventLabel i) (DistSpec.discrete (LV.get_hazards st.ecology θ)) with ⟨v, env1⟩
  have ht1 : env1.trace
      = st.env.trace ++ [⟨eventLabel i, DistSpec.discrete (LV.get_hazards st.ecology θ), v⟩] := by
    have := bindVar_trace st.env (eventLabel i) (DistSpec.discrete (LV.get_hazards st.ecology θ))
    rwa [hb] at this
  cases v with
  | q w => exact ⟨Val.q w, [], ht1, Or.inl rfl⟩
  | s key =>
    dsimp only
    cases ht : dictGet st.lv.transitions key with
    | none => exact ⟨Val.s key, [], ht1, Or.inl rfl⟩
    | some d =>
      dsimp only
      rcases hb2 : env1.bindVar (timeLabel i)
          (DistSpec.exponential (sumValues (LV.get_hazards st.ecology θ))) with ⟨v2, env2⟩
      have ht2 : env2.trace = env1.trace
          ++ [⟨timeLabel i, DistSpec.exponential (sumValues (LV.get_hazards st.ecology θ)), v2⟩] := by
        have := bindVar_trace env1 (timeLabel i)
          (DistSpec.exponential (sumValues (LV.get_hazards st.ecology θ)))
        rwa [hb2] at this
      have hall : env2.trace = st.env.trace
          ++ ⟨eventLabel i, DistSpec.discrete (LV.get_hazards st.ecology θ), Val.s key⟩
            :: [⟨timeLabel i, DistSpec.exponential (sumValues (LV.get_hazards st.ecology θ)), v2⟩] := by
        rw [ht2, ht1, List.append_assoc]
        rfl
      cases v2 with
      | s w =>
        exact ⟨Val.s key, [⟨timeLabel i, DistSpec.exponential (sumValues (LV.get_hazards st.ecology θ)), Val.s w⟩],
          hall, Or.inr ⟨sumValues (LV.get_hazards st.ecology θ), Val.s w, rfl⟩⟩
      | q dt =>
        exact ⟨Val.s key, [⟨timeLabel i, DistSpec.exponential (sumValues (LV.get_hazards st.ecology θ)), Val.q dt⟩],
          hall, Or.inr ⟨sumValues (LV.get_hazards st.ecology θ), Val.q dt, rfl⟩⟩

theorem eventLabel_ne_theta (i : ℕ) : eventLabel i ≠ "theta" := by
  intro h
  have h2 : 'e' :: 'v' :: 'e' :: 'n' :: 't' :: '_' :: (toString i).data = ['t', 'h', 'e', 't', 'a'] :=
    congrArg String.data h
  injection h2 with hc _
  exact absurd hc (by decide)

theorem timeLabel_ne_theta (i : ℕ) : timeLabel i ≠ "theta" := by
  intro h
  have h2 : 't' :: '_' :: (toString i).data = ['t', 'h', 'e', 't', 'a'] :=
    congrArg String.data h
  injection h2 with _ h3
  injection h3 with hc _
  exact absurd hc (by decide)

theorem timeLabel_ne_eventLabel (i j : ℕ) : timeLabel i ≠ eventLabel j := by
  intro h
  have h2 : 't' :: '_' :: (toString i).data = 'e' :: 'v' :: 'e' :: 'n' :: 't' :: '_' :: (toString j).data :=
    congrArg String.data h
  injection h2 with hc _
  exact absurd hc (by decide)

theorem countLabel_nil (l : String) : countLabel [] l = 0 := rfl

theorem countLabel_append (a b : List TraceEntry) (l : String) :
    countLabel (a ++ b) l = countLabel a l + countLabel b l := by
  simp [countLabel, List.filter_append]

theorem countLabel_cons_ne (e : TraceEntry) (tr : List TraceEntry) (l : String)
    (h : e.label ≠ l) : countLabel (e :: tr) l = countLabel tr l := by
  simp [countLabel, List.filter_cons, h]

theorem eventEntriesUse_nil (θ : Theta) : eventEntriesUse θ [] := by
  intro e he
  exact absurd he (List.not_mem_nil e)

theorem eventEntriesUse_append (θ : Theta) (a b : List TraceEntry)
    (ha : eventEntriesUse θ a) (hb : eventEntriesUse θ b) : eventEntriesUse θ (a ++ b) := by
  intro e he hex
  rcases List.mem_append.1 he with h | h
  · exact ha e h hex
  · exact hb e h hex

theorem runLoop_of_err (θ : Theta) (i k : ℕ) (st : SimState) (h : st.err = true) :
    runLoop θ i k st = st := by
  cases k with
  | zero => rfl
  | succ k => simp [runLoop, h]

theorem runLoop_frame (θ : Theta) (k : ℕ) : ∀ (i : ℕ) (st : SimState),
    (runLoop θ i k st).env.evidence = st.env.evidence ∧
    (runLoop θ i k st).env.stream = st.env.stream ∧
    (runLoop θ i k st).lv.transitions = st.lv.transitions ∧
    (runLoop θ i k st).lv.select_hyp = st.lv.select_hyp ∧
    (runLoop θ i k st).lv.initial = st.lv.initial ∧
    (runLoop θ i k st).lv.N = st.lv.N := by
  induction k with
  | zero => intro i st; exact ⟨rfl, rfl, rfl, rfl, rfl, rfl⟩
  | succ k ih =>
    intro i st
    by_cases herr : st.err
    · rw [runLoop_of_err θ i (k + 1) st herr]
      exact ⟨rfl, rfl, rfl, rfl, rfl, rfl⟩
    · have hred : runLoop θ i (k + 1) st = runLoop θ (i + 1) k (stepOnce θ i st) := by
        simp [runLoop, herr]
      rw [hred]
      obtain ⟨a1, a2, a3, a4, a5, a6⟩ := ih (i + 1) (stepOnce θ i st)
      obtain ⟨b1, b2, b3, b4, b5, b6⟩ := stepOnce_frame θ i st
      exact ⟨a1.trans b1, a2.trans b2, a3.trans b3, a4.trans b4, a5.trans b5, a6.trans b6⟩

theorem runLoop_trace (θ : Theta) (k : ℕ) : ∀ (i : ℕ) (st : SimState),
    ∃ tl, (runLoop θ i k st).env.trace = st.env.trace ++ tl ∧
      countLabel tl "theta" = 0 ∧ eventEntriesUse θ tl := by
  induction k with
  | zero =>
    intro i st
    exact ⟨[], (List.append_nil _).symm, rfl, eventEntriesUse_nil θ⟩
  | succ k ih =>
    intro i st
    by_cases herr : st.err
    · rw [runLoop_of_err θ i (k + 1) st herr]
      exact ⟨[], (List.append_nil _).symm, rfl, eventEntriesUse_nil θ⟩
    · have hred : runLoop θ i (k + 1) st = runLoop θ (i + 1) k (stepOnce θ i st) := by
        simp [runLoop, herr]
      obtain ⟨v, tl2, hsh, hcase⟩ := stepOnce_trace θ i st
      obtain ⟨tl3, h3, hc3, hu3⟩ := ih (i + 1) (stepOnce θ i st)
      refine ⟨(⟨eventLabel i, DistSpec.discrete (LV.get_hazards st.ecology θ), v⟩ :: tl2) ++ tl3,
        ?_, ?_, ?_⟩
      · rw [hred, h3, hsh]
        simp [List.append_assoc]
      · rw [countLabel_append,
          countLabel_cons_ne _ _ _ (eventLabel_ne_theta i), hc3]
        rcases hcase with h | ⟨r, w, h⟩
        · rw [h]; rfl
        · rw [h, countLabel_cons_ne _ _ _ (timeLabel_ne_theta i)]; rfl
      · refine eventEntriesUse_append θ _ _ ?_ hu3
        intro e he hex
        rcases List.mem_cons.1 he with rfl | he
        · exact ⟨st.ecology, rfl⟩
        · rcases hcase with h | ⟨r, w, h⟩
          · rw [h] at he; exact absurd he (List.not_mem_nil e)
          · rw [h] at he
            rcases List.mem_cons.1 he with rfl | he
            · obtain ⟨j, hj⟩ := hex
              exact absurd hj (timeLabel_ne_eventLabel i j)
            · exact absurd he (List.not_mem_nil e)

/-! ## Concrete environments used in scenario theorems and witnesses -/

/-- A fresh-draw stream yielding valid draws: hypothesis `H1`, then
alternating reaction keys and waiting times. -/
def streamA : ℕ → Val
  | 0 => Val.s "H1"
  | 1 => Val.s "spawn_prey"
  | 2 => Val.q 1
  | 3 => Val.s "pred_dies"
  | 4 => Val.q 2
  | _ => Val.q 1

/-- An environment with no forced evidence drawing from `streamA`. -/
def envA : Env := ⟨[], streamA, 0, []⟩

/-- An environment forcing one `prey2pred` (predation) step of
waiting time 1. -/
def envC9 : Env :=
  ⟨[("theta", Val.s "H1"), ("event_1", Val.s "prey2pred"), ("t_1", Val.q 1)],
   fun _ => Val.q 0, 0, []⟩

/-- Claim C2: `get_hazards` returns exactly the mass-action mapping
`{spawn_prey: θ.spawn_prey * prey, prey2pred: θ.prey2pred * prey * pred,
pred_dies: θ.pred_dies * pred}`; consequently every hazard is
non-negative for non-negative counts and positive rates, and a
reaction's hazard is exactly zero when a species it requires has
count zero. -/
theorem get_hazards_spec (ec : Ecology) (θ : Theta) :
    (LV.get_hazards ec θ =
      [("spawn_prey", θ.spawn_prey * ec.prey),
       ("prey2pred", θ.prey2pred * ec.prey * ec.pred),
       ("pred_dies", θ.pred_dies * ec.pred)]) ∧
    (0 ≤ ec.prey → 0 ≤ ec.pred → 0 < θ.spawn_prey → 0 < θ.prey2pred → 0 < θ.pred_dies →
      ∀ x ∈ (LV.get_hazards ec θ).map Prod.snd, 0 ≤ x) ∧
    (ec.prey = 0 →
      dictGet (LV.get_hazards ec θ) "spawn_prey" = some 0 ∧
      dictGet (LV.get_hazards ec θ) "prey2pred" = some 0) ∧
    (ec.pred = 0 →
      dictGet (LV.get_hazards ec θ) "prey2pred" = some 0 ∧
      dictGet (LV.get_hazards ec θ) "pred_dies" = some 0) := by
  refine ⟨rfl, ?_, ?_, ?_⟩
  · intro hp hq h1 h2 h3 x hx
    simp only [LV.get_hazards, List.map_cons, List.map_nil, List.mem_cons,
      List.not_mem_nil, or_false] at hx
    rcases hx with h | h | h <;> subst h
    · exact mul_nonneg h1.le (by exact_mod_cast hp)
    · exact mul_nonneg (mul_nonneg h2.le (by exact_mod_cast hp)) (by exact_mod_cast hq)
    · exact mul_nonneg h3.le (by exact_mod_cast hq)
  · intro h
    constructor
    · show some (θ.spawn_prey * (ec.prey : ℚ)) = some 0
      rw [h]; norm_num
    · show some (θ.prey2pred * (ec.prey : ℚ) * ec.pred) = some 0
      rw [h]; norm_num
  · intro h
    constructor
    · show some (θ.prey2pred * (ec.prey : ℚ) * ec.pred) = some 0
      rw [h]; norm_num
    · show some (θ.pred_dies * (ec.pred : ℚ)) = some 0
      rw [h]; norm_num

theorem get_hazards_spec_witness :
    (∀ x ∈ (LV.get_hazards ⟨2, 3⟩ ⟨1, 0.005, 0.6⟩).map Prod.snd, 0 ≤ x) ∧
    (dictGet (LV.get_hazards ⟨0, 3⟩ ⟨1, 0.005, 0.6⟩) "spawn_prey" = some 0 ∧
     dictGet (LV.get_hazards ⟨0, 3⟩ ⟨1, 0.005, 0.6⟩) "prey2pred" = some 0) ∧
    (dictGet (LV.get_hazards ⟨2, 0⟩ ⟨1, 0.005, 0.6⟩) "prey2pred" = some 0 ∧
     dictGet (LV.get_hazards ⟨2, 0⟩ ⟨1, 0.005, 0.6⟩) "pred_dies" = some 0) :=
  ⟨(get_hazards_spec ⟨2, 3⟩ ⟨1, 0.005, 0.6⟩).2.1 (by decide) (by decide)
      (by norm_num) (by norm_num) (by norm_num),
   (get_hazards_spec ⟨0, 3⟩ ⟨1, 0.005, 0.6⟩).2.2.1 rfl,
   (get_hazards_spec ⟨2, 0⟩ ⟨1, 0.005, 0.6⟩).2.2.2 rfl⟩

/-- Claim C8: at `{prey: 50, pred: 100}` under the hard-coded `H1`
parameters, the step-1 hazards are `{spawn_prey: 50, prey2pred: 25,
pred_dies: 60}` with total 135, the event-selection probabilities are
`50/135`, `25/135`, `60/135`, and the waiting time is exponential with
rate 135, hence mean `1/135`; a run's first loop iteration binds
exactly these distributions. -/
theorem scenario_h1_first_step :
    dictGet theta_hypotheses "H1" = some ⟨1, 0.005, 0.6⟩ ∧
    LV.get_hazards ⟨50, 100⟩ ⟨1, 0.005, 0.6⟩ =
      [("spawn_prey", 50), ("prey2pred", 25), ("pred_dies", 60)] ∧
    sumValues (LV.get_hazards ⟨50, 100⟩ ⟨1, 0.005, 0.6⟩) = 135 ∧
    discreteProb (LV.get_hazards ⟨50, 100⟩ ⟨1, 0.005, 0.6⟩) "spawn_prey" = 50 / 135 ∧
    discreteProb (LV.get_hazards ⟨50, 100⟩ ⟨1, 0.005, 0.6⟩) "prey2pred" = 25 / 135 ∧
    discreteProb (LV.get_hazards ⟨50, 100⟩ ⟨1, 0.005, 0.6⟩) "pred_dies" = 60 / 135 ∧
    expMean (sumValues (LV.get_hazards ⟨50, 100⟩ ⟨1, 0.005, 0.6⟩)) = 1 / 135 ∧
    ((LV.init transitions ⟨50, 100⟩ 2 "H1" 0).run envA).env.trace =
      [⟨"theta", DistSpec.discrete [("H1", 1), ("H2", 0), ("H3", 0)], Val.s "H1"⟩,
       ⟨eventLabel 1, DistSpec.discrete [("spawn_prey", 50), ("prey2pred", 25), ("pred_dies", 60)],
        Val.s "spawn_prey"⟩,
       ⟨timeLabel 1, DistSpec.exponential 135, Val.q 1⟩] := by
  refine ⟨rfl, ?_, ?_, ?_, ?_, ?_, ?_, ?_⟩
  · norm_num [LV.get_hazards]
  · norm_num [sumValues, LV.get_hazards]
  · simp +decide [discreteProb, dictGet, sumValues, LV.get_hazards]
    norm_num
  · simp +decide [discreteProb, dictGet, sumValues, LV.get_hazards]
    norm_num
  · simp +decide [discreteProb, dictGet, sumValues, LV.get_hazards]
    norm_num
  · norm_num [expMean, sumValues, LV.get_hazards]
  · norm_num [LV.run, runLoop, stepOnce, Env.bindVar, dictGet, LV.init, envA, streamA,
      thetaDist, dictInsert, theta_hypotheses, LV.get_hazards, sumValues, transitions]
    decide

/-- Claim C9: the clamp is applied to each species independently after
the whole delta is added, so firing predation (delta `(-1, +1)`) at
`prey = 0` leaves `prey = 0` but still increments `pred`, breaking the
reaction's stoichiometry instead of rejecting the transition. -/
theorem clamp_applied_per_species :
    updateEcology ⟨0, 5⟩ (-1, 1) = ⟨0, 6⟩ ∧
    (updateEcology ⟨0, 5⟩ (-1, 1)).prey ≠ 0 + (-1) ∧
    dictGet transitions "prey2pred" = some (-1, 1) ∧
    ((LV.init transitions ⟨0, 5⟩ 2 "H1" 0).run envC9).ok = true ∧
    ((LV.init transitions ⟨0, 5⟩ 2 "H1" 0).run envC9).lv.trajectory_prey = [0, 0] ∧
    ((LV.init transitions ⟨0, 5⟩ 2 "H1" 0).run envC9).lv.trajectory_pred = [5, 6] := by
  refine ⟨?_, ?_, ?_, ?_, ?_, ?_⟩ <;> decide

/-- Claim C10: `run` never mutates the stored initial population (the
source deep-copies it into the working state), nor the transitions,
hypothesis policy or step count: only `times` and the trajectory
grow. -/
theorem run_preserves_initial (lv : LV) (env : Env) :
    ((lv.run env).lv.initial = lv.initial) ∧
    ((lv.run env).lv.transitions = lv.transitions) ∧
    ((lv.run env).lv.select_hyp = lv.select_hyp) ∧
    ((lv.run env).lv.N = lv.N) := by
  unfold LV.run
  rcases hb : env.bindVar "theta" (DistSpec.discrete (thetaDist lv.select_hyp)) with ⟨v, env1⟩
  cases v with
  | q _ => exact ⟨rfl, rfl, rfl, rfl⟩
  | s key =>
    dsimp only
    cases hth : dictGet theta_hypotheses key with
    | none => exact ⟨rfl, rfl, rfl, rfl⟩
    | some θ =>
      dsimp only
      obtain ⟨_, _, h3, h4, h5, h6⟩ :=
        runLoop_frame θ (lv.N - 1) 1 ⟨lv.initial, lv.times.headI, lv, env1, false⟩
      exact ⟨h5, h3, h4, h6⟩

theorem stepOnce_traj (θ : Theta) (i : ℕ) (st : SimState) :
    ∃ tp tq, (stepOnce θ i st).lv.trajectory_prey = st.lv.trajectory_prey ++ tp ∧
      (stepOnce θ i st).lv.trajectory_pred = st.lv.trajectory_pred ++ tq ∧
      (∀ x ∈ tp, 0 ≤ x) ∧ (∀ x ∈ tq, 0 ≤ x) := by
  unfold stepOnce
  rcases hb : st.env.bindVar (eventLabel i) (DistSpec.discrete (LV.get_hazards st.ecology θ)) with ⟨v, env1⟩
  cases v with
  | q _ =>
    exact ⟨[], [], (List.append_nil _).symm, (List.append_nil _).symm,
      fun x hx => absurd hx (List.not_mem_nil x), fun x hx => absurd hx (List.not_mem_nil x)⟩
  | s key =>
    dsimp only
    cases ht : dictGet st.lv.transitions key with
    | none =>
      exact ⟨[], [], (List.append_nil _).symm, (List.append_nil _).symm,
        fun x hx => absurd hx (List.not_mem_nil x), fun x hx => absurd hx (List.not_mem_nil x)⟩
    | some d =>
      dsimp only
      rcases hb2 : env1.bindVar (timeLabel i)
          (DistSpec.exponential (sumValues (LV.get_hazards st.ecology θ))) with ⟨v2, env2⟩
      cases v2 with
      | s _ =>
        exact ⟨[], [], (List.append_nil _).symm, (List.append_nil _).symm,
          fun x hx => absurd hx (List.not_mem_nil x), fun x hx => absurd hx (List.not_mem_nil x)⟩
      | q dt =>
        refine ⟨[(updateEcology st.ecology d).prey], [(updateEcology st.ecology d).pred],
          rfl, rfl, ?_, ?_⟩
        · intro x hx
          rcases List.mem_singleton.1 hx with rfl
          exact le_max_left 0 _
        · intro x hx
          rcases List.mem_singleton.1 hx with rfl
          exact le_max_left 0 _

theorem runLoop_traj (θ : Theta) (k : ℕ) : ∀ (i : ℕ) (st : SimState),
    ∃ tp tq, (runLoop θ i k st).lv.trajectory_prey = st.lv.trajectory_prey ++ tp ∧
      (runLoop θ i k st).lv.trajectory_pred = st.lv.trajectory_pred ++ tq ∧
      (∀ x ∈ tp, 0 ≤ x) ∧ (∀ x ∈ tq, 0 ≤ x) := by
  induction k with
  | zero =>
    intro i st
    exact ⟨[], [], (List.append_nil _).symm, (List.append_nil _).symm,
      fun x hx => absurd hx (List.not_mem_nil x), fun x hx => absurd hx (List.not_mem_nil x)⟩
  | succ k ih =>
    intro i st
    by_cases herr : st.err
    · rw [runLoop_of_err θ i (k + 1) st herr]
      exact ⟨[], [], (List.append_nil _).symm, (List.append_nil _).symm,
        fun x hx => absurd hx (List.not_mem_nil x), fun x hx => absurd hx (List.not_mem_nil x)⟩
    · have hred : runLoop θ i (k + 1) st = runLoop θ (i + 1) k (stepOnce θ i st) := by
        simp [runLoop, herr]
      obtain ⟨sp, sq, hsp, hsq, hsp0, hsq0⟩ := stepOnce_traj θ i st
      obtain ⟨tp, tq, htp, htq, htp0, htq0⟩ := ih (i + 1) (stepOnce θ i st)
      refine ⟨sp ++ tp, sq ++ tq, ?_, ?_, ?_, ?_⟩
      · rw [hred, htp, hsp, List.append_assoc]
      · rw [hred, htq, hsq, List.append_assoc]
      · intro x hx
        rcases List.mem_append.1 hx with h | h
        · exact hsp0 x h
        · exact htp0 x h
      · intro x hx
        rcases List.mem_append.1 hx with h | h
        · exact hsq0 x h
        · exact htq0 x h

/-- Claim C1: for every initial population with non-negative counts,
every sequence of random draws and every step count, each entry the
run appends to the prey and pred trajectory sequences is a
non-negative integer (the per-species clamp `max(0, _)` is applied
before recording), and hence the whole recorded trajectory is
non-negative. -/
theorem run_appended_counts_nonneg (trans : List (String × ℤ × ℤ)) (initial : Ecology)
    (N : ℕ) (sh : String) (t0 : ℚ) (env : Env)
    (hprey : 0 ≤ initial.prey) (hpred : 0 ≤ initial.pred) :
    (∀ x ∈ (((LV.init trans initial N sh t0).run env).lv.trajectory_prey).drop 1, 0 ≤ x) ∧
    (∀ x ∈ (((LV.init trans initial N sh t0).run env).lv.trajectory_pred).drop 1, 0 ≤ x) ∧
    (∀ x ∈ ((LV.init trans initial N sh t0).run env).lv.trajectory_prey, 0 ≤ x) ∧
    (∀ x ∈ ((LV.init trans initial N sh t0).run env).lv.trajectory_pred, 0 ≤ x) := by
  unfold LV.run
  rcases hb : env.bindVar "theta"
      (DistSpec.discrete (thetaDist (LV.init trans initial N sh t0).select_hyp)) with ⟨v, env1⟩
  cases v with
  | q _ =>
    refine ⟨?_, ?_, ?_, ?_⟩ <;> intro x hx
    · exact absurd hx (List.not_mem_nil x)
    · exact absurd hx (List.not_mem_nil x)
    · rcases List.mem_singleton.1 hx with rfl; exact hprey
    · rcases List.mem_singleton.1 hx with rfl; exact hpred
  | s key =>
    dsimp only
    cases hth : dictGet theta_hypotheses key with
    | none =>
      refine ⟨?_, ?_, ?_, ?_⟩ <;> intro x hx
      · exact absurd hx (List.not_mem_nil x)
      · exact absurd hx (List.not_mem_nil x)
      · rcases List.mem_singleton.1 hx with rfl; exact hprey
      · rcases List.mem_singleton.1 hx with rfl; exact hpred
    | some θ =>
      dsimp only
      obtain ⟨tp, tq, htp, htq, htp0, htq0⟩ :=
        runLoop_traj θ ((LV.init trans initial N sh t0).N - 1) 1
          ⟨(LV.init trans initial N sh t0).initial,
           (LV.init trans initial N sh t0).times.headI, LV.init trans initial N sh t0, env1, false⟩
      rw [htp, htq]
      refine ⟨?_, ?_, ?_, ?_⟩ <;> intro x hx
      · exact htp0 x (by simpa using hx)
      · exact htq0 x (by simpa using hx)
      · rcases List.mem_cons.1 (by simpa [LV.init] using hx) with rfl | h
        · exact hprey
        · exact htp0 x h
      · rcases List.mem_cons.1 (by simpa [LV.init] using hx) with rfl | h
        · exact hpred
        · exact htq0 x h

theorem run_appended_counts_nonneg_witness :
    ((0 : ℤ) ≤ 50) ∧ ((0 : ℤ) ≤ 100) ∧
    (∀ x ∈ (((LV.init transitions ⟨50, 100⟩ 3 "H1" 0).run envA).lv.trajectory_prey).drop 1, 0 ≤ x) :=
  ⟨by decide, by decide,
   (run_appended_counts_nonneg transitions ⟨50, 100⟩ 3 "H1" 0 envA (by decide) (by decide)).1⟩

/-- The loop state at the all-extinct population, used to instantiate
the degenerate-state theorems. -/
def stExtinct : SimState := ⟨⟨0, 0⟩, 0, LV.init transitions ⟨0, 0⟩ 2 "H1" 0, envA, false⟩

/-- Claim C3 counterexample: at the all-extinct state `{prey: 0,
pred: 0}` the total hazard is `0 ≤ 0`, yet the run raises no
degenerate-state error before drawing the next event: it still binds
`event_1` (the trace records exactly one such draw), completes with
`ok = true`, and appends a step. -/
theorem no_degenerate_check_cex :
    sumValues (LV.get_hazards ⟨0, 0⟩ ⟨1, 0.005, 0.6⟩) ≤ 0 ∧
    dictGet theta_hypotheses "H1" = some ⟨1, 0.005, 0.6⟩ ∧
    ((LV.init transitions ⟨0, 0⟩ 2 "H1" 0).run envA).ok = true ∧
    countLabel (((LV.init transitions ⟨0, 0⟩ 2 "H1" 0).run envA).env.trace) (eventLabel 1) = 1 ∧
    (((LV.init transitions ⟨0, 0⟩ 2 "H1" 0).run envA).lv.times).length = 2 := by
  refine ⟨?_, rfl, ?_, ?_, ?_⟩
  · norm_num [sumValues, LV.get_hazards]
  · decide
  · decide
  · decide

/-- Claim C3 amended: the loop body performs no total-hazard check:
even when the total hazard at the current state is `≤ 0`, the step
still binds the next event from the zero-total hazard distribution
(recording it in the trace) instead of failing first; the code has no
`DegenerateStateError`. -/
theorem step_still_draws_when_degenerate (θ : Theta) (i : ℕ) (st : SimState)
    (_hdeg : sumValues (LV.get_hazards st.ecology θ) ≤ 0) :
    ∃ v tl, (stepOnce θ i st).env.trace
        = st.env.trace ++ ⟨eventLabel i, DistSpec.discrete (LV.get_hazards st.ecology θ), v⟩ :: tl :=
  let ⟨v, tl, h, _⟩ := stepOnce_trace θ i st
  ⟨v, tl, h⟩

theorem step_still_draws_when_degenerate_witness :
    sumValues (LV.get_hazards stExtinct.ecology ⟨1, 0.005, 0.6⟩) ≤ 0 ∧
    ∃ v tl, (stepOnce ⟨1, 0.005, 0.6⟩ 1 stExtinct).env.trace
        = stExtinct.env.trace
          ++ ⟨eventLabel 1, DistSpec.discrete (LV.get_hazards stExtinct.ecology ⟨1, 0.005, 0.6⟩), v⟩ :: tl :=
  ⟨by norm_num [stExtinct, sumValues, LV.get_hazards],
   step_still_draws_when_degenerate ⟨1, 0.005, 0.6⟩ 1 stExtinct
     (by norm_num [stExtinct, sumValues, LV.get_hazards])⟩

/-- Claim C7 counterexample: a negative initial population is not
rejected: with `initial = {prey: -5, pred: 3}` the run completes with
no error of any kind, even though the first step's hazard mapping
contains the negative hazard `-5`. -/
theorem no_model_error_cex :
    ((LV.init transitions ⟨-5, 3⟩ 2 "H1" 0).initial.prey < 0) ∧
    dictGet (LV.get_hazards ⟨-5, 3⟩ ⟨1, 0.005, 0.6⟩) "spawn_prey" = some (-5) ∧
    ((LV.init transitions ⟨-5, 3⟩ 2 "H1" 0).run envA).ok = true ∧
    (((LV.init transitions ⟨-5, 3⟩ 2 "H1" 0).run envA).lv.times).length = 2 := by
  refine ⟨by decide, ?_, by decide, by decide⟩
  norm_num [LV.get_hazards, dictGet]

/-- Claim C7 amended: the simulator validates nothing: for every
initial population, valid or not (negative counts included, which
produce negative hazards), the run proceeds and completes exactly as
for a valid one; no `ModelError` exists in the code. -/
theorem run_no_input_validation (p q : ℤ) :
    ((LV.init transitions ⟨p, q⟩ 2 "H1" 0).run envA).ok = true ∧
    (((LV.init transitions ⟨p, q⟩ 2 "H1" 0).run envA).lv.times).length = 2 := by
  constructor <;> rfl

theorem chain_le_snoc_snoc (l : List ℚ) (a b : ℚ)
    (h : List.Chain' (fun x y => x ≤ y) (l ++ [a])) (hab : a ≤ b) :
    List.Chain' (fun x y => x ≤ y) ((l ++ [b]) ++ [b]) := by
  rw [List.chain'_append] at h ⊢
  obtain ⟨hl, -, hlast⟩ := h
  refine ⟨?_, List.chain'_singleton b, ?_⟩
  · rw [List.chain'_append]
    refine ⟨hl, List.chain'_singleton b, ?_⟩
    intro x hx y hy
    rw [List.head?_cons, Option.mem_some_iff] at hy
    subst hy
    exact le_trans (hlast x hx (a) (by simp)) hab
  · intro x hx y hy
    rw [List.getLast?_concat, Option.mem_some_iff] at hx
    rw [List.head?_cons, Option.mem_some_iff] at hy
    subst hx; subst hy
    exact le_refl b

theorem stepOnce_success (θ : Theta) (i : ℕ) (st : SimState)
    (h : (stepOnce θ i st).err = false) :
    ∃ dt, (stepOnce θ i st).t = st.t + dt ∧
      (stepOnce θ i st).lv.times = st.lv.times ++ [st.t + dt] ∧
      (stepOnce θ i st).lv.trajectory_prey.length = st.lv.trajectory_prey.length + 1 ∧
      (stepOnce θ i st).lv.trajectory_pred.length = st.lv.trajectory_pred.length + 1 ∧
      (dictGet st.env.evidence (timeLabel i) = some (Val.q dt) ∨
        ∃ n, st.env.stream n = Val.q dt) := by
  unfold stepOnce at h ⊢
  rcases hb : st.env.bindVar (eventLabel i) (DistSpec.discrete (LV.get_hazards st.ecology θ)) with ⟨v, env1⟩
  rw [hb] at h
  have he1 : env1.evidence = st.env.evidence := by
    have := bindVar_evidence st.env (eventLabel i) (DistSpec.discrete (LV.get_hazards st.ecology θ))
    rwa [hb] at this
  have hs1 : env1.stream = st.env.stream := by
    have := bindVar_stream st.env (eventLabel i) (DistSpec.discrete (LV.get_hazards st.ecology θ))
    rwa [hb] at this
  cases v with
  | q _ => simp at h
  | s key =>
    dsimp only at h ⊢
    cases ht : dictGet st.lv.transitions key with
    | none => rw [ht] at h; simp at h
    | some d =>
      rw [ht] at h
      dsimp only at h ⊢
      rcases hb2 : env1.bindVar (timeLabel i)
          (DistSpec.exponential (sumValues (LV.get_hazards st.ecology θ))) with ⟨v2, env2⟩
      rw [hb2] at h
      cases v2 with
      | s _ => simp at h
      | q dt =>
        refine ⟨dt, rfl, rfl, by simp, by simp, ?_⟩
        have horigin := bindVar_value_cases env1 (timeLabel i)
          (DistSpec.exponential (sumValues (LV.get_hazards st.ecology θ)))
        rw [hb2] at horigin
        rcases horigin with hcase | hcase
        · rw [he1] at hcase
          exact Or.inl hcase
        · rw [hs1] at hcase
          exact Or.inr ⟨env1.idx, hcase.symm⟩

theorem runLoop_success (θ : Theta) (k : ℕ) : ∀ (i : ℕ) (st : SimState),
    (runLoop θ i k st).err = false →
    (∀ l x, dictGet st.env.evidence l = some (Val.q x) → 0 ≤ x) →
    (∀ n x, st.env.stream n = Val.q x → 0 ≤ x) →
    List.Chain' (fun a b => a ≤ b) (st.lv.times ++ [st.t]) →
    (runLoop θ i k st).lv.times.length = st.lv.times.length + k ∧
    (runLoop θ i k st).lv.trajectory_prey.length = st.lv.trajectory_prey.length + k ∧
    (runLoop θ i k st).lv.trajectory_pred.length = st.lv.trajectory_pred.length + k ∧
    List.Chain' (fun a b => a ≤ b) ((runLoop θ i k st).lv.times ++ [(runLoop θ i k st).t]) := by
  induction k with
  | zero =>
    intro i st h hev hstr hchain
    exact ⟨rfl, rfl, rfl, hchain⟩
  | succ k ih =>
    intro i st h hev hstr hchain
    by_cases herr : st.err
    · rw [runLoop_of_err θ i (k + 1) st herr] at h
      simp [herr] at h
    · have hred : runLoop θ i (k + 1) st = runLoop θ (i + 1) k (stepOnce θ i st) := by
        simp [runLoop, herr]
      rw [hred] at h ⊢
      have hsf : (stepOnce θ i st).err = false := by
        by_contra hc
        rw [runLoop_of_err θ (i + 1) k (stepOnce θ i st) (by simpa using hc)] at h
        exact hc h
      obtain ⟨dt, hdt, htimes, hp, hq, horigin⟩ := stepOnce_success θ i st hsf
      have hdt0 : 0 ≤ dt := by
        rcases horigin with hc | ⟨n, hc⟩
        · exact hev (timeLabel i) dt hc
        · exact hstr n dt hc
      obtain ⟨f1, f2, _, _, _, _⟩ := stepOnce_frame θ i st
      have hev' : ∀ l x, dictGet (stepOnce θ i st).env.evidence l = some (Val.q x) → 0 ≤ x := by
        rw [f1]; exact hev
      have hstr' : ∀ n x, (stepOnce θ i st).env.stream n = Val.q x → 0 ≤ x := by
        rw [f2]; exact hstr
      have hchain' : List.Chain' (fun a b => a ≤ b)
          ((stepOnce θ i st).lv.times ++ [(stepOnce θ i st).t]) := by
        rw [htimes, hdt]
        exact chain_le_snoc_snoc st.lv.times st.t (st.t + dt) hchain
          (le_add_of_nonneg_right hdt0)
      obtain ⟨l1, l2, l3, l4⟩ := ih (i + 1) (stepOnce θ i st) h hev' hstr' hchain'
      refine ⟨?_, ?_, ?_, l4⟩
      · rw [l1, htimes]; simp; omega
      · rw [l2, hp]; omega
      · rw [l3, hq]; omega

theorem streamA_q_nonneg : ∀ n x, streamA n = Val.q x → 0 ≤ x := by
  intro n x h
  rcases n with _ | _ | _ | _ | _ | n
  · exact absurd h (by simp [streamA])
  · exact absurd h (by simp [streamA])
  · rw [show streamA 2 = Val.q 1 from rfl] at h
    injection h with h1
    rw [← h1]; norm_num
  · exact absurd h (by simp [streamA])
  · rw [show streamA 4 = Val.q 2 from rfl] at h
    injection h with h1
    rw [← h1]; norm_num
  · rw [show streamA (n + 5) = Val.q 1 from rfl] at h
    injection h with h1
    rw [← h1]; norm_num

/-- Claim C5 counterexample: with requested step count `N = 0` the
completed run's time sequence has 1 entry (the seeded `t0`), not `N`
entries: `range(1, 0)` is empty but `__init__` seeded `times` with
`[t0]`. -/
theorem run_times_length_cex :
    ((LV.init transitions ⟨50, 100⟩ 0 "H1" 0).run envA).ok = true ∧
    (LV.init transitions ⟨50, 100⟩ 0 "H1" 0).N = 0 ∧
    (((LV.init transitions ⟨50, 100⟩ 0 "H1" 0).run envA).lv.times).length = 1 ∧
    ¬((((LV.init transitions ⟨50, 100⟩ 0 "H1" 0).run envA).lv.times).length = 0) := by
  exact ⟨by decide, by decide, by decide, by decide⟩

/-- Claim C5 amended: for a requested step count `N ≥ 1` (for `N = 0`
the seeded initial entry remains, giving length 1), a run that
completes without exception has exactly `N` entries in `times` and in
each per-species trajectory, and `times` is non-decreasing provided
every waiting-time draw offered by the environment is non-negative. -/
theorem run_output_lengths_and_monotone (trans : List (String × ℤ × ℤ)) (initial : Ecology)
    (N : ℕ) (sh : String) (t0 : ℚ) (env : Env)
    (hN : 1 ≤ N)
    (hok : ((LV.init trans initial N sh t0).run env).ok = true)
    (hev : ∀ l x, dictGet env.evidence l = some (Val.q x) → 0 ≤ x)
    (hstr : ∀ n x, env.stream n = Val.q x → 0 ≤ x) :
    (((LV.init trans initial N sh t0).run env).lv.times).length = N ∧
    (((LV.init trans initial N sh t0).run env).lv.trajectory_prey).length = N ∧
    (((LV.init trans initial N sh t0).run env).lv.trajectory_pred).length = N ∧
    List.Chain' (fun a b => a ≤ b) ((LV.init trans initial N sh t0).run env).lv.times := by
  unfold LV.run at hok ⊢
  rcases hb : env.bindVar "theta"
      (DistSpec.discrete (thetaDist (LV.init trans initial N sh t0).select_hyp)) with ⟨v, env1⟩
  rw [hb] at hok
  have he1 : env1.evidence = env.evidence := by
    have := bindVar_evidence env "theta"
      (DistSpec.discrete (thetaDist (LV.init trans initial N sh t0).select_hyp))
    rwa [hb] at this
  have hs1 : env1.stream = env.stream := by
    have := bindVar_stream env "theta"
      (DistSpec.discrete (thetaDist (LV.init trans initial N sh t0).select_hyp))
    rwa [hb] at this
  cases v with
  | q _ => simp at hok
  | s key =>
    dsimp only at hok ⊢
    cases hth : dictGet theta_hypotheses key with
    | none => rw [hth] at hok; simp at hok
    | some θ =>
      rw [hth] at hok
      dsimp only at hok ⊢
      have herr : (runLoop θ 1 ((LV.init trans initial N sh t0).N - 1)
          ⟨(LV.init trans initial N sh t0).initial, (LV.init trans initial N sh t0).times.headI,
           LV.init trans initial N sh t0, env1, false⟩).err = false := by
        simpa using hok
      have hev1 : ∀ l x, dictGet env1.evidence l = some (Val.q x) → 0 ≤ x := by
        rw [he1]; exact hev
      have hstr1 : ∀ n x, env1.stream n = Val.q x → 0 ≤ x := by
        rw [hs1]; exact hstr
      have hchain0 : List.Chain' (fun a b => a ≤ b)
          ((LV.init trans initial N sh t0).times ++ [(LV.init trans initial N sh t0).times.headI]) := by
        show List.Chain' (fun a b => a ≤ b) ([t0] ++ [t0])
        exact List.chain'_pair.mpr le_rfl
      obtain ⟨l1, l2, l3, l4⟩ := runLoop_success θ ((LV.init trans initial N sh t0).N - 1) 1
        ⟨(LV.init trans initial N sh t0).initial, (LV.init trans initial N sh t0).times.headI,
         LV.init trans initial N sh t0, env1, false⟩ herr hev1 hstr1 hchain0
      refine ⟨?_, ?_, ?_, List.Chain'.left_of_append l4⟩
      · rw [l1]
        show 1 + (N - 1) = N
        omega
      · rw [l2]
        show 1 + (N - 1) = N
        omega
      · rw [l3]
        show 1 + (N - 1) = N
        omega

theorem run_output_lengths_and_monotone_witness :
    (1 ≤ 3) ∧ ((LV.init transitions ⟨50, 100⟩ 3 "H1" 0).run envA).ok = true ∧
    ((((LV.init transitions ⟨50, 100⟩ 3 "H1" 0).run envA).lv.times).length = 3 ∧
     (((LV.init transitions ⟨50, 100⟩ 3 "H1" 0).run envA).lv.trajectory_prey).length = 3 ∧
     (((LV.init transitions ⟨50, 100⟩ 3 "H1" 0).run envA).lv.trajectory_pred).length = 3 ∧
     List.Chain' (fun a b => a ≤ b) ((LV.init transitions ⟨50, 100⟩ 3 "H1" 0).run envA).lv.times) :=
  ⟨by decide, by decide,
   run_output_lengths_and_monotone transitions ⟨50, 100⟩ 3 "H1" 0 envA (by decide) (by decide)
     (fun l x h => by simp [envA, dictGet] at h) streamA_q_nonneg⟩

theorem run_theta_first (lv : LV) (env : Env) (htr : env.trace = []) :
    ∃ v rest, (lv.run env).env.trace
        = ⟨"theta", DistSpec.discrete (thetaDist lv.select_hyp), v⟩ :: rest ∧
      countLabel rest "theta" = 0 ∧
      (∀ key θ, v = Val.s key → dictGet theta_hypotheses key = some θ →
        eventEntriesUse θ rest) := by
  unfold LV.run
  rcases hb : env.bindVar "theta" (DistSpec.discrete (thetaDist lv.select_hyp)) with ⟨v, env1⟩
  have ht1 : env1.trace = [⟨"theta", DistSpec.discrete (thetaDist lv.select_hyp), v⟩] := by
    have := bindVar_trace env "theta" (DistSpec.discrete (thetaDist lv.select_hyp))
    rw [hb] at this
    rw [this, htr, List.nil_append]
  cases v with
  | q w =>
    refine ⟨Val.q w, [], by rw [ht1], rfl, ?_⟩
    intro key θ hk
    cases hk
  | s key =>
    dsimp only
    cases hth : dictGet theta_hypotheses key with
    | none =>
      refine ⟨Val.s key, [], by rw [ht1], rfl, ?_⟩
      intro key' θ hk hθ
      injection hk with hk'
      rw [← hk', hth] at hθ
      cases hθ
    | some θ0 =>
      dsimp only
      obtain ⟨tl, htl, hcl, huse⟩ := runLoop_trace θ0 (lv.N - 1) 1
        ⟨lv.initial, lv.times.headI, lv, env1, false⟩
      refine ⟨Val.s key, tl, ?_, hcl, ?_⟩
      · rw [htl]
        show env1.trace ++ tl = _
        rw [ht1, List.singleton_append]
      · intro key' θ hk hθ
        injection hk with hk'
        rw [← hk', hth] at hθ
        injection hθ with hθ'
        rw [← hθ']
        exact huse

/-- The one-hot selection property of a pinned hypothesis: the
`"theta"` distribution gives probability 1 to the pinned name and 0
to the others, sampling it yields the pinned name for every uniform
draw, the run binds `"theta"` exactly once and first, and every
event distribution of the run uses the single selected parameter
set. -/
def PinnedHypSpec (sh : String) : Prop :=
  (dictGet (thetaDist sh) sh = some 1 ∧
    ∀ k, (k = "H1" ∨ k = "H2" ∨ k = "H3") → k ≠ sh → dictGet (thetaDist sh) k = some 0) ∧
  (∀ u : ℚ, 0 ≤ u → u < 1 → discreteSample (thetaDist sh) u = some sh) ∧
  (∀ (lv : LV) (env : Env), lv.select_hyp = sh → env.trace = [] →
    ∃ v rest, (lv.run env).env.trace
        = ⟨"theta", DistSpec.discrete (thetaDist sh), v⟩ :: rest ∧
      countLabel rest "theta" = 0 ∧
      (∀ key θ, v = Val.s key → dictGet theta_hypotheses key = some θ →
        eventEntriesUse θ rest))

/-- Claim C6: the hypothesis is drawn exactly once per run, before the
first simulation step, and the selected hypothesis's parameters are
used unchanged at every step; when the caller pins `"H1"`, `"H2"` or
`"H3"`, the categorical hypothesis distribution is one-hot, so the
pinned hypothesis is selected deterministically. -/
theorem hypothesis_pinned_once (sh : String)
    (hsh : sh = "H1" ∨ sh = "H2" ∨ sh = "H3") : PinnedHypSpec sh := by
  refine ⟨⟨?_, ?_⟩, ?_, ?_⟩
  · rcases hsh with rfl | rfl | rfl <;> decide
  · intro k hk hne
    rcases hsh with rfl | rfl | rfl <;> rcases hk with rfl | rfl | rfl <;>
      first
        | exact absurd rfl hne
        | decide
  · intro u h0 h1
    rcases hsh with rfl | rfl | rfl
    · have hw : thetaDist "H1" = [("H1", 1), ("H2", 0), ("H3", 0)] := by decide
      rw [hw]
      unfold discreteSample
      have hsv : sumValues [("H1", (1 : ℚ)), ("H2", 0), ("H3", 0)] = 1 := by
        norm_num [sumValues]
      rw [hsv, if_neg (by norm_num), mul_one]
      simp only [discreteSampleGo]
      rw [if_pos h1]
    · have hw : thetaDist "H2" = [("H1", 0), ("H2", 1), ("H3", 0)] := by decide
      rw [hw]
      unfold discreteSample
      have hsv : sumValues [("H1", (0 : ℚ)), ("H2", 1), ("H3", 0)] = 1 := by
        norm_num [sumValues]
      rw [hsv, if_neg (by norm_num), mul_one]
      simp only [discreteSampleGo]
      rw [if_neg (not_lt.2 h0), sub_zero, if_pos h1]
    · have hw : thetaDist "H3" = [("H1", 0), ("H2", 0), ("H3", 1)] := by decide
      rw [hw]
      unfold discreteSample
      have hsv : sumValues [("H1", (0 : ℚ)), ("H2", 0), ("H3", 1)] = 1 := by
        norm_num [sumValues]
      rw [hsv, if_neg (by norm_num), mul_one]
      simp only [discreteSampleGo]
      rw [if_neg (not_lt.2 h0), sub_zero, if_neg (not_lt.2 h0), sub_zero, if_pos h1]
  · intro lv env hsel htr
    have h := run_theta_first lv env htr
    rw [hsel] at h
    exact h

theorem hypothesis_pinned_once_witness :
    ("H2" = "H1" ∨ "H2" = "H2" ∨ "H2" = "H3") ∧ PinnedHypSpec "H2" :=
  ⟨by decide, hypothesis_pinned_once "H2" (by decide)⟩

theorem stepOnce_replay (θ : Theta) (i : ℕ) (st1 st2 : SimState)
    (hec : st1.ecology = st2.ecology) (ht : st1.t = st2.t) (hlv : st1.lv = st2.lv)
    (hforce : ∀ e ∈ (stepOnce θ i st1).env.trace,
      dictGet st2.env.evidence e.label = some e.value) :
    (stepOnce θ i st2).lv = (stepOnce θ i st1).lv ∧
    (stepOnce θ i st2).err = (stepOnce θ i st1).err ∧
    (stepOnce θ i st2).ecology = (stepOnce θ i st1).ecology ∧
    (stepOnce θ i st2).t = (stepOnce θ i st1).t ∧
    (stepOnce θ i st2).env.evidence = st2.env.evidence ∧
    (stepOnce θ i st2).env.stream = st2.env.stream := by
  rcases hb1 : st1.env.bindVar (eventLabel i)
      (DistSpec.discrete (LV.get_hazards st1.ecology θ)) with ⟨v1, env1⟩
  have htr1 : env1.trace = st1.env.trace
      ++ [⟨eventLabel i, DistSpec.discrete (LV.get_hazards st1.ecology θ), v1⟩] := by
    have := bindVar_trace st1.env (eventLabel i) (DistSpec.discrete (LV.get_hazards st1.ecology θ))
    rwa [hb1] at this
  rcases hb1' : st2.env.bindVar (eventLabel i)
      (DistSpec.discrete (LV.get_hazards st2.ecology θ)) with ⟨w1, env1'⟩
  have hev1' : env1'.evidence = st2.env.evidence := by
    have := bindVar_evidence st2.env (eventLabel i) (DistSpec.discrete (LV.get_hazards st2.ecology θ))
    rwa [hb1'] at this
  have hst1' : env1'.stream = st2.env.stream := by
    have := bindVar_stream st2.env (eventLabel i) (DistSpec.discrete (LV.get_hazards st2.ecology θ))
    rwa [hb1'] at this
  cases v1 with
  | q w =>
    have hstep1 : stepOnce θ i st1 = ⟨st1.ecology, st1.t, st1.lv, env1, true⟩ := by
      unfold stepOnce
      rw [hb1]
    have hforced : dictGet st2.env.evidence (eventLabel i) = some (Val.q w) := by
      have hm : (⟨eventLabel i, DistSpec.discrete (LV.get_hazards st1.ecology θ), Val.q w⟩ : TraceEntry)
          ∈ (stepOnce θ i st1).env.trace := by
        rw [hstep1]
        show _ ∈ env1.trace
        rw [htr1]
        exact List.mem_append_right _ (List.mem_singleton_self _)
      exact hforce _ hm
    have hw1 : w1 = Val.q w := by
      have := bindVar_forced st2.env (eventLabel i)
        (DistSpec.discrete (LV.get_hazards st2.ecology θ)) (Val.q w) hforced
      rw [hb1'] at this
      exact this
    subst hw1
    have hstep2 : stepOnce θ i st2 = ⟨st2.ecology, st2.t, st2.lv, env1', true⟩ := by
      unfold stepOnce
      rw [hb1']
    rw [hstep1, hstep2]
    exact ⟨hlv.symm, rfl, hec.symm, ht.symm, hev1', hst1'⟩
  | s key =>
    cases htd : dictGet st1.lv.transitions key with
    | none =>
      have hstep1 : stepOnce θ i st1 = ⟨st1.ecology, st1.t, st1.lv, env1, true⟩ := by
        unfold stepOnce
        rw [hb1]
        dsimp only
        rw [htd]
      have hforced : dictGet st2.env.evidence (eventLabel i) = some (Val.s key) := by
        have hm : (⟨eventLabel i, DistSpec.discrete (LV.get_hazards st1.ecology θ), Val.s key⟩ : TraceEntry)
            ∈ (stepOnce θ i st1).env.trace := by
          rw [hstep1]
          show _ ∈ env1.trace
          rw [htr1]
          exact List.mem_append_right _ (List.mem_singleton_self _)
        exact hforce _ hm
      have hw1 : w1 = Val.s key := by
        have := bindVar_forced st2.env (eventLabel i)
          (DistSpec.discrete (LV.get_hazards st2.ecology θ)) (Val.s key) hforced
        rw [hb1'] at this
        exact this
      subst hw1
      have hstep2 : stepOnce θ i st2 = ⟨st2.ecology, st2.t, st2.lv, env1', true⟩ := by
        unfold stepOnce
        rw [hb1']
        dsimp only
        rw [← hlv, htd]
      rw [hstep1, hstep2]
      exact ⟨hlv.symm, rfl, hec.symm, ht.symm, hev1', hst1'⟩
    | some d =>
      rcases hb2 : env1.bindVar (timeLabel i)
          (DistSpec.exponential (sumValues (LV.get_hazards st1.ecology θ))) with ⟨v2, env2⟩
      have htr2 : env2.trace = env1.trace
          ++ [⟨timeLabel i, DistSpec.exponential (sumValues (LV.get_hazards st1.ecology θ)), v2⟩] := by
        have := bindVar_trace env1 (timeLabel i)
          (DistSpec.exponential (sumValues (LV.get_hazards st1.ecology θ)))
        rwa [hb2] at this
      cases v2 with
      | s w2v =>
        have hstep1 : stepOnce θ i st1 = ⟨st1.ecology, st1.t, st1.lv, env2, true⟩ := by
          unfold stepOnce
          rw [hb1]
          dsimp only
          rw [htd]
          dsimp only
          rw [hb2]
        have hforced : dictGet st2.env.evidence (eventLabel i) = some (Val.s key) := by
          have hm : (⟨eventLabel i, DistSpec.discrete (LV.get_hazards st1.ecology θ), Val.s key⟩ : TraceEntry)
              ∈ (stepOnce θ i st1).env.trace := by
            rw [hstep1]
            show _ ∈ env2.trace
            rw [htr2, htr1]
            exact List.mem_append_left _ (List.mem_append_right _ (List.mem_singleton_self _))
          exact hforce _ hm
        have hforced2 : dictGet st2.env.evidence (timeLabel i) = some (Val.s w2v) := by
          have hm : (⟨timeLabel i, DistSpec.exponential (sumValues (LV.get_hazards st1.ecology θ)),
              Val.s w2v⟩ : TraceEntry) ∈ (stepOnce θ i st1).env.trace := by
            rw [hstep1]
            show _ ∈ env2.trace
            rw [htr2]
            exact List.mem_append_right _ (List.mem_singleton_self _)
          exact hforce _ hm
        have hw1 : w1 = Val.s key := by
          have := bindVar_forced st2.env (eventLabel i)
            (DistSpec.discrete (LV.get_hazards st2.ecology θ)) (Val.s key) hforced
          rw [hb1'] at this
          exact this
        subst hw1
        rcases hb2' : env1'.bindVar (timeLabel i)
            (DistSpec.exponential (sumValues (LV.get_hazards st2.ecology θ))) with ⟨w2, env2'⟩
        have hw2 : w2 = Val.s w2v := by
          have := bindVar_forced env1' (timeLabel i)
            (DistSpec.exponential (sumValues (LV.get_hazards st2.ecology θ))) (Val.s w2v)
            (by rw [hev1']; exact hforced2)
          rw [hb2'] at this
          exact this
        subst hw2
        have hev2' : env2'.evidence = st2.env.evidence := by
          have := bindVar_evidence env1' (timeLabel i)
            (DistSpec.exponential (sumValues (LV.get_hazards st2.ecology θ)))
          rw [hb2'] at this
          rw [this, hev1']
        have hst2' : env2'.stream = st2.env.stream := by
          have := bindVar_stream env1' (timeLabel i)
            (DistSpec.exponential (sumValues (LV.get_hazards st2.ecology θ)))
          rw [hb2'] at this
          rw [this, hst1']
        have hstep2 : stepOnce θ i st2 = ⟨st2.ecology, st2.t, st2.lv, env2', true⟩ := by
          unfold stepOnce
          rw [hb1']
          dsimp only
          rw [← hlv, htd]
          dsimp only
          rw [hb2']
        rw [hstep1, hstep2]
        exact ⟨hlv.symm, rfl, hec.symm, ht.symm, hev2', hst2'⟩
      | q dt =>
        have hstep1 : stepOnce θ i st1
            = ⟨updateEcology st1.ecology d, st1.t + dt,
               { st1.lv with
                  times := st1.lv.times ++ [st1.t + dt],
                  trajectory_prey := st1.lv.trajectory_prey ++ [(updateEcology st1.ecology d).prey],
                  trajectory_pred := st1.lv.trajectory_pred ++ [(updateEcology st1.ecology d).pred] },
               env2, false⟩ := by
          unfold stepOnce
          rw [hb1]
          dsimp only
          rw [htd]
          dsimp only
          rw [hb2]
        have hforced : dictGet st2.env.evidence (eventLabel i) = some (Val.s key) := by
          have hm : (⟨eventLabel i, DistSpec.discrete (LV.get_hazards st1.ecology θ), Val.s key⟩ : TraceEntry)
              ∈ (stepOnce θ i st1).env.trace := by
            rw [hstep1]
            show _ ∈ env2.trace
            rw [htr2, htr1]
            exact List.mem_append_left _ (List.mem_append_right _ (List.mem_singleton_self _))
          exact hforce _ hm
        have hforced2 : dictGet st2.env.evidence (timeLabel i) = some (Val.q dt) := by
          have hm : (⟨timeLabel i, DistSpec.exponential (sumValues (LV.get_hazards st1.ecology θ)),
              Val.q dt⟩ : TraceEntry) ∈ (stepOnce θ i st1).env.trace := by
            rw [hstep1]
            show _ ∈ env2.trace
            rw [htr2]
            exact List.mem_append_right _ (List.mem_singleton_self _)
          exact hforce _ hm
        have hw1 : w1 = Val.s key := by
          have := bindVar_forced st2.env (eventLabel i)
            (DistSpec.discrete (LV.get_hazards st2.ecology θ)) (Val.s key) hforced
          rw [hb1'] at this
          exact this
        subst hw1
        rcases hb2' : env1'.bindVar (timeLabel i)
            (DistSpec.exponential (sumValues (LV.get_hazards st2.ecology θ))) with ⟨w2, env2'⟩
        have hw2 : w2 = Val.q dt := by
          have := bindVar_forced env1' (timeLabel i)
            (DistSpec.exponential (sumValues (LV.get_hazards st2.ecology θ))) (Val.q dt)
            (by rw [hev1']; exact hforced2)
          rw [hb2'] at this
          exact this
        subst hw2
        have hev2' : env2'.evidence = st2.env.evidence := by
          have := bindVar_evidence env1' (timeLabel i)
            (DistSpec.exponential (sumValues (LV.get_hazards st2.ecology θ)))
          rw [hb2'] at this
          rw [this, hev1']
        have hst2' : env2'.stream = st2.env.stream := by
          have := bindVar_stream env1' (timeLabel i)
            (DistSpec.exponential (sumValues (LV.get_hazards st2.ecology θ)))
          rw [hb2'] at this
          rw [this, hst1']
        have hstep2 : stepOnce θ i st2
            = ⟨updateEcology st2.ecology d, st2.t + dt,
               { st2.lv with
                  times := st2.lv.times ++ [st2.t + dt],
                  trajectory_prey := st2.lv.trajectory_prey ++ [(updateEcology st2.ecology d).prey],
                  trajectory_pred := st2.lv.trajectory_pred ++ [(updateEcology st2.ecology d).pred] },
               env2', false⟩ := by
          unfold stepOnce
          rw [hb1']
          dsimp only
          rw [← hlv, htd]
          dsimp only
          rw [hb2']
        rw [hstep1, hstep2]
        rw [← hec, ← ht, ← hlv]
        exact ⟨rfl, rfl, rfl, rfl, hev2', hst2'⟩

theorem runLoop_replay (θ : Theta) (k : ℕ) : ∀ (i : ℕ) (st1 st2 : SimState),
    st1.ecology = st2.ecology → st1.t = st2.t → st1.lv = st2.lv → st1.err = st2.err →
    (∀ e ∈ (runLoop θ i k st1).env.trace, dictGet st2.env.evidence e.label = some e.value) →
    (runLoop θ i k st2).lv = (runLoop θ i k st1).lv ∧
    (runLoop θ i k st2).err = (runLoop θ i k st1).err := by
  induction k with
  | zero =>
    intro i st1 st2 hec ht hlv herr hforce
    exact ⟨hlv.symm, herr.symm⟩
  | succ k ih =>
    intro i st1 st2 hec ht hlv herr hforce
    by_cases h1 : st1.err = true
    · have h2 : st2.err = true := by rw [← herr]; exact h1
      rw [runLoop_of_err θ i (k + 1) st1 h1, runLoop_of_err θ i (k + 1) st2 h2]
      exact ⟨hlv.symm, herr.symm⟩
    · have h1' : st1.err = false := by simpa using h1
      have h2' : st2.err = false := by rw [← herr]; exact h1'
      have hred1 : runLoop θ i (k + 1) st1 = runLoop θ (i + 1) k (stepOnce θ i st1) := by
        simp [runLoop, h1']
      have hred2 : runLoop θ i (k + 1) st2 = runLoop θ (i + 1) k (stepOnce θ i st2) := by
        simp [runLoop, h2']
      rw [hred1] at hforce
      rw [hred1, hred2]
      have hstepforce : ∀ e ∈ (stepOnce θ i st1).env.trace,
          dictGet st2.env.evidence e.label = some e.value := by
        intro e he
        apply hforce
        obtain ⟨tl, htl, -, -⟩ := runLoop_trace θ k (i + 1) (stepOnce θ i st1)
        rw [htl]
        exact List.mem_append_left _ he
      obtain ⟨slv, serr, sec, sst, sev, -⟩ := stepOnce_replay θ i st1 st2 hec ht hlv hstepforce
      apply ih (i + 1) (stepOnce θ i st1) (stepOnce θ i st2) sec.symm sst.symm slv.symm serr.symm
      intro e he
      rw [sev]
      exact hforce e he

/-- Claim C4: the run is deterministic given its random draws: if a
fresh run records a trace, then any second run of the same object in
which every label of that trace is forced (in the evidence table) to
the recorded value reproduces the first run's `times`, trajectories and
outcome exactly — in particular, re-running conditioned on the full
extracted trace replays the original trajectory, regardless of what
the second environment's own fresh-draw stream would produce. -/
theorem run_replay (lv : LV) (env1 env2 : Env)
    (htr : env1.trace = [])
    (hforce : ∀ e ∈ (lv.run env1).env.trace, dictGet env2.evidence e.label = some e.value) :
    (lv.run env2).lv = (lv.run env1).lv ∧ (lv.run env2).ok = (lv.run env1).ok := by
  unfold LV.run at hforce ⊢
  rcases hb1 : env1.bindVar "theta" (DistSpec.discrete (thetaDist lv.select_hyp)) with ⟨v1, env1'⟩
  rw [hb1] at hforce
  have htr1 : env1'.trace = [⟨"theta", DistSpec.discrete (thetaDist lv.select_hyp), v1⟩] := by
    have := bindVar_trace env1 "theta" (DistSpec.discrete (thetaDist lv.select_hyp))
    rw [hb1] at this
    rw [this, htr, List.nil_append]
  rcases hb2 : env2.bindVar "theta" (DistSpec.discrete (thetaDist lv.select_hyp)) with ⟨w1, env2'⟩
  have hev2 : env2'.evidence = env2.evidence := by
    have := bindVar_evidence env2 "theta" (DistSpec.discrete (thetaDist lv.select_hyp))
    rwa [hb2] at this
  cases v1 with
  | q w =>
    dsimp only at hforce ⊢
    have hforced : dictGet env2.evidence "theta" = some (Val.q w) := by
      have hm : (⟨"theta", DistSpec.discrete (thetaDist lv.select_hyp), Val.q w⟩ : TraceEntry)
          ∈ env1'.trace := by
        rw [htr1]
        exact List.mem_singleton_self _
      exact hforce _ hm
    have hw1 : w1 = Val.q w := by
      have := bindVar_forced env2 "theta" (DistSpec.discrete (thetaDist lv.select_hyp))
        (Val.q w) hforced
      rw [hb2] at this
      exact this
    subst hw1
    exact ⟨rfl, rfl⟩
  | s key =>
    dsimp only at hforce ⊢
    cases hth : dictGet theta_hypotheses key with
    | none =>
      rw [hth] at hforce
      have hforced : dictGet env2.evidence "theta" = some (Val.s key) := by
        have hm : (⟨"theta", DistSpec.discrete (thetaDist lv.select_hyp), Val.s key⟩ : TraceEntry)
            ∈ env1'.trace := by
          rw [htr1]
          exact List.mem_singleton_self _
        exact hforce _ hm
      have hw1 : w1 = Val.s key := by
        have := bindVar_forced env2 "theta" (DistSpec.discrete (thetaDist lv.select_hyp))
          (Val.s key) hforced
        rw [hb2] at this
        exact this
      subst hw1
      dsimp only
      rw [hth]
      exact ⟨rfl, rfl⟩
    | some θ =>
      rw [hth] at hforce
      have hforced : dictGet env2.evidence "theta" = some (Val.s key) := by
        have hm : (⟨"theta", DistSpec.discrete (thetaDist lv.select_hyp), Val.s key⟩ : TraceEntry)
            ∈ (runLoop θ 1 (lv.N - 1) ⟨lv.initial, lv.times.headI, lv, env1', false⟩).env.trace := by
          obtain ⟨tl, htl, -, -⟩ := runLoop_trace θ (lv.N - 1) 1
            ⟨lv.initial, lv.times.headI, lv, env1', false⟩
          rw [htl]
          apply List.mem_append_left
          show _ ∈ env1'.trace
          rw [htr1]
          exact List.mem_singleton_self _
        exact hforce _ hm
      have hw1 : w1 = Val.s key := by
        have := bindVar_forced env2 "theta" (DistSpec.discrete (thetaDist lv.select_hyp))
          (Val.s key) hforced
        rw [hb2] at this
        exact this
      subst hw1
      dsimp only
      rw [hth]
      dsimp only
      have hrepl := runLoop_replay θ (lv.N - 1) 1
        ⟨lv.initial, lv.times.headI, lv, env1', false⟩
        ⟨lv.initial, lv.times.headI, lv, env2', false⟩
        rfl rfl rfl rfl
        (by
          intro e he
          show dictGet env2'.evidence e.label = some e.value
          rw [hev2]
          exact hforce e he)
      obtain ⟨hl, he⟩ := hrepl
      rw [hl, he]
      exact ⟨rfl, rfl⟩

/-- A junk stream: replay must not consult it for forced labels. -/
def zeroStream : ℕ → Val := fun _ => Val.q 0

/-- A concrete 3-step forward run used for the round-trip witness. -/
def lvRT : LV := LV.init transitions ⟨50, 100⟩ 3 "H1" 0

/-- The conditioning environment of the round-trip witness: all labels
of the forward run's trace forced as evidence, fresh draws replaced by
a junk stream. -/
def envRT : Env := ⟨evidenceOf ((lvRT.run envA).env.trace), zeroStream, 0, []⟩

theorem run_replay_witness :
    (envA.trace = []) ∧
    ((lvRT.run envRT).lv = (lvRT.run envA).lv ∧ (lvRT.run envRT).ok = (lvRT.run envA).ok) :=
  ⟨rfl, run_replay lvRT envA envRT rfl (by decide)⟩
